import Mathlib

/-!
Shallow embedding of the cellular-automata simulation repository
(`forest_fire.py`, `turing_patterns.py`): toroidal grids, the fire-spread
and activation–inhibition transition rules, the density-based initializers
and the double-buffered stepper, together with theorems checking the
claims of the specification against these definitions.

Grids are modelled as total functions `ℕ → ℕ → ℤ` (fire model) and
`ℕ → ℕ → ℚ` (pattern model); the code only ever reads cells through
wrapped coordinates `(i % size)`, which land in `[0, size)`, and only the
cells with both coordinates below `size` correspond to entries of the
numpy arrays.  Python floats are modelled as exact rationals; random draws
(`np.random.choice`, `np.random.randint`) become explicit parameters whose
documented postconditions appear as hypotheses of the theorems.
-/

namespace CA

/-- The integer list `[lo, lo+1, ..., hi]`, as `range(lo, hi+1)` in Python
iterates it (empty when `hi < lo`). -/
def intRange (lo hi : ℤ) : List ℤ :=
  (List.range (hi + 1 - lo).toNat).map (fun k : ℕ => lo + (k : ℤ))

/-- Wraparound indexing, `i % size` in Python (mathematical modulus, so
nonnegative for positive `size`). -/
def wrap (n : ℕ) (i : ℤ) : ℕ := (i % (n : ℤ)).toNat

/-- A fire-model grid: cell values `0`=empty, `1`=tree, `2`=burning,
`3`=burnt (stored as floats by numpy, modelled as integers). -/
abbrev Grid := ℕ → ℕ → ℤ

/-- A pattern-model grid: cell values `0`=inactive, `1`=active (stored as
floats by numpy, modelled as rationals since the transition rule mixes
them with real-valued weights). -/
abbrev QGrid := ℕ → ℕ → ℚ

/-- The all-zeros grid produced by `np.zeros((size, size))`. -/
def zeroGrid : Grid := fun _ _ => 0

/-- The all-zeros pattern grid produced by `np.zeros((size, size))`. -/
def zeroQGrid : QGrid := fun _ _ => 0

/-- The neighbor scan of `ForestFire.update` for a tree cell: the double
loop over `dr, dc ∈ range(-radius, radius+1)` skipping `(0, 0)`, testing
whether `current_state[(row+dr) % size, (col+dc) % size] == 2`.  The
`break` in the source leaves only the inner `dc` loop and merely skips
re-assignments of the already-assigned `state = 2`, so the scan computes
exactly this disjunction. -/
def burningNeighbor (n : ℕ) (radius : ℤ) (g : Grid) (row col : ℕ) : Bool :=
  (intRange (-radius) radius).any fun dr =>
    (intRange (-radius) radius).any fun dc =>
      (decide (dr ≠ 0) || decide (dc ≠ 0)) &&
        decide (g (wrap n ((row : ℤ) + dr)) (wrap n ((col : ℤ) + dc)) = 2)

/-- The per-cell transition of `ForestFire.update`: burning (2) becomes
burnt (3); a tree (1) becomes burning (2) when the neighbor scan finds a
burning cell; every other value is written back unchanged. -/
def fireCell (n : ℕ) (radius : ℤ) (g : Grid) (row col : ℕ) : ℤ :=
  let state := g row col
  if state = 2 then 3
  else if state = 1 then (if burningNeighbor n radius g row col then 2 else 1)
  else state

/-- The grid-to-grid action of `ForestFire.update`: the next buffer filled
cell by cell from the current grid only. -/
def fireStepGrid (n : ℕ) (radius : ℤ) (g : Grid) : Grid :=
  fun row col => fireCell n radius g row col

/-- The state of a `ForestFire` instance: the constructor parameters, the
two buffers and the step counter. -/
structure ForestFire where
  size : ℕ
  density : ℚ
  radius : ℤ
  current_state : Grid
  next_state : Grid
  step_counter : ℕ

/-- `ForestFire.__init__(size, density, radius)`: stores the parameters,
allocates two all-zeros buffers and sets the step counter to 0.  The
source performs no parameter validation. -/
def ForestFire.init (size : ℕ) (density : ℚ) (radius : ℤ) : ForestFire :=
  ⟨size, density, radius, zeroGrid, zeroGrid, 0⟩

/-- `ForestFire.update()`: fill the next buffer from the current grid, swap
the buffers, increment the step counter. -/
def ForestFire.update (s : ForestFire) : ForestFire :=
  { s with
    current_state := fireStepGrid s.size s.radius s.current_state
    next_state := s.current_state
    step_counter := s.step_counter + 1 }

/-- One window accumulation of `TuringPatterns.update`: the double loop
`for col1 in range(-r, r+1): for row1 in range(-r, r+1): acc +=
current_state[(row+row1) % size, (col+col1) % size]`, which sums the whole
`(2r+1)²` window including the center cell. -/
def windowSum (n : ℕ) (r : ℤ) (g : QGrid) (row col : ℕ) : ℚ :=
  ((intRange (-r) r).map fun c1 =>
    ((intRange (-r) r).map fun r1 =>
      g (wrap n ((row : ℤ) + r1)) (wrap n ((col : ℤ) + c1))).sum).sum

/-- The per-cell transition of `TuringPatterns.update`: `na` over the
`Ra` window, `ni` over the `Ri` window, `diff = wa*na - wi*ni`, next state
1 when `diff > 0` and 0 otherwise.  (The source first reads the current
cell into `state`, but both branches of the threshold overwrite it.) -/
def patternCell (n : ℕ) (Ra Ri : ℤ) (wa wi : ℚ) (g : QGrid) (row col : ℕ) : ℚ :=
  let na := windowSum n Ra g row col
  let ni := windowSum n Ri g row col
  let diff := wa * na - wi * ni
  if diff > 0 then 1 else 0

/-- The grid-to-grid action of `TuringPatterns.update`. -/
def patternStepGrid (n : ℕ) (Ra Ri : ℤ) (wa wi : ℚ) (g : QGrid) : QGrid :=
  fun row col => patternCell n Ra Ri wa wi g row col

/-- The state of a `TuringPatterns` instance. -/
structure TuringPatterns where
  size : ℕ
  density : ℚ
  Ra : ℤ
  Ri : ℤ
  wa : ℚ
  wi : ℚ
  current_state : QGrid
  next_state : QGrid
  step_counter : ℕ

/-- `TuringPatterns.__init__(size, density, short_radius, long_radius,
short_weight, long_weight)`: stores the parameters, allocates two
all-zeros buffers and sets the step counter to 0.  The source performs no
parameter validation. -/
def TuringPatterns.init (size : ℕ) (density : ℚ)
    (short_radius long_radius : ℤ) (short_weight long_weight : ℚ) :
    TuringPatterns :=
  ⟨size, density, short_radius, long_radius, short_weight, long_weight,
    zeroQGrid, zeroQGrid, 0⟩

/-- `TuringPatterns.update()`: fill the next buffer from the current grid,
swap the buffers, increment the step counter. -/
def TuringPatterns.update (s : TuringPatterns) : TuringPatterns :=
  { s with
    current_state := patternStepGrid s.size s.Ra s.Ri s.wa s.wi s.current_state
    next_state := s.current_state
    step_counter := s.step_counter + 1 }

/-- The failure modes named by the specification: `InsufficientCells` for
an over-large sample request (the `ValueError` raised by
`np.random.choice(..., replace=False)`), `InvalidParameter` for the
construction-time validation the specification prescribes. -/
inductive SimError where
  | insufficientCells : SimError
  | invalidParameter : SimError
deriving DecidableEq

/-- Models `np.random.choice(size**2, k, replace=False)` followed by the
flat-index-to-coordinate view: the call returns `k` distinct cell
positions (the parameter `draw` stands for the RNG outcome, constrained
by hypotheses where it matters) and raises when the requested count
exceeds the `size²`-cell population. -/
def sampleCells (n k : ℕ) (draw : Finset (ℕ × ℕ)) :
    Except SimError (Finset (ℕ × ℕ)) :=
  if k ≤ n ^ 2 then .ok draw else .error .insufficientCells

/-- `int(self.density * total_cells)` from `ForestFire.initialize`
(`total_cells = size ** 2`); the Python `int` function truncates toward zero, which
agrees with the floor on the nonnegative densities the claims range
over. -/
def fireTreeCount (n : ℕ) (density : ℚ) : ℕ :=
  (⌊density * (n : ℚ) ^ 2⌋).toNat

/-- Round to the nearest integer with ties to even, the rule of the Python `round` builtin. -/
def roundHalfEven (x : ℚ) : ℤ :=
  if x - ⌊x⌋ < 1 / 2 then ⌊x⌋
  else if x - ⌊x⌋ > 1 / 2 then ⌊x⌋ + 1
  else if ⌊x⌋ % 2 = 0 then ⌊x⌋ else ⌊x⌋ + 1

/-- The Python call `round(x, 1)`: round to one decimal digit, ties to even. -/
def round1 (x : ℚ) : ℚ := (roundHalfEven (10 * x) : ℚ) / 10

/-- `int(round(self.density * num_cells, 1) + 1)` from
`TuringPatterns.initialize` (`num_cells = size ** 2`). -/
def patternActiveCount (n : ℕ) (density : ℚ) : ℕ :=
  (⌊round1 (density * (n : ℚ) ^ 2) + 1⌋).toNat

/-- `self.current_state.flat[indices] = 1` applied to the all-zeros grid
of a freshly constructed instance (the specification requires initialize
to run exactly once, right after construction). -/
def placeOnes (s : Finset (ℕ × ℕ)) : Grid :=
  fun r c => if (r, c) ∈ s then 1 else 0

/-- The pattern-model counterpart of `placeOnes`. -/
def placeOnesQ (s : Finset (ℕ × ℕ)) : QGrid :=
  fun r c => if (r, c) ∈ s then 1 else 0

/-- The ignition step of `ForestFire.initialize`: when the placed grid has
any tree (on a fresh grid, exactly when `trees` is nonempty), the randomly
picked tree coordinate — modelled by the parameter `pick`, which the
theorems constrain to lie in `trees` — is set to burning (2). -/
def igniteAt (trees : Finset (ℕ × ℕ)) (pick : ℕ × ℕ) : Grid :=
  fun r c =>
    if trees.Nonempty ∧ (r, c) = pick then 2 else placeOnes trees r c

/-- `ForestFire.initialize()` on a freshly constructed instance: draw
`int(density * size**2)` distinct cells, mark them trees, ignite one
randomly chosen tree when at least one exists. -/
def fireSeed (n : ℕ) (density : ℚ) (draw : Finset (ℕ × ℕ))
    (pick : ℕ × ℕ) : Except SimError Grid :=
  (sampleCells n (fireTreeCount n density) draw).map
    (fun trees => igniteAt trees pick)

/-- `TuringPatterns.initialize()` on a freshly constructed instance: draw
`int(round(density * size**2, 1) + 1)` distinct cells and mark them
active. -/
def patternSeed (n : ℕ) (density : ℚ) (draw : Finset (ℕ × ℕ)) :
    Except SimError QGrid :=
  (sampleCells n (patternActiveCount n density) draw).map placeOnesQ

/-- The number of in-range cells of a fire grid holding the value `v`. -/
def cellCount (n : ℕ) (g : Grid) (v : ℤ) : ℕ :=
  ((Finset.range n ×ˢ Finset.range n).filter fun p => g p.1 p.2 = v).card

/-- The number of in-range cells of a pattern grid holding the value
`v`. -/
def qCellCount (n : ℕ) (g : QGrid) (v : ℚ) : ℕ :=
  ((Finset.range n ×ˢ Finset.range n).filter fun p => g p.1 p.2 = v).card

/-- Modelled from the spec (§7), not present in the source: the
construction-time validity condition for the fire model — positive size,
density within `[0, 1]`, radius at least 1. -/
def fireParamsValid (size : ℤ) (density : ℚ) (radius : ℤ) : Prop :=
  0 < size ∧ 0 ≤ density ∧ density ≤ 1 ∧ 1 ≤ radius

/-- Modelled from the spec (§7), not present in the source: the
construction-time validity condition for the pattern model. -/
def patternParamsValid (size : ℤ) (density : ℚ)
    (short_radius long_radius : ℤ) : Prop :=
  0 < size ∧ 0 ≤ density ∧ density ≤ 1 ∧
    1 ≤ short_radius ∧ 1 ≤ long_radius ∧ short_radius ≤ long_radius

instance (size : ℤ) (density : ℚ) (radius : ℤ) :
    Decidable (fireParamsValid size density radius) := by
  unfold fireParamsValid; infer_instance

instance (size : ℤ) (density : ℚ) (short_radius long_radius : ℤ) :
    Decidable (patternParamsValid size density short_radius long_radius) := by
  unfold patternParamsValid; infer_instance

/-- A concrete 3×3 fire simulation used to instantiate the fire-model
theorems: one burning cell at the origin, trees everywhere else. -/
def fireExample : ForestFire :=
  { ForestFire.init 3 (1 / 2) 1 with
    current_state := fun r c => if r = 0 ∧ c = 0 then 2 else 1 }

/-- A concrete 2×2 pattern simulation on the all-zeros grid, used to
instantiate the pattern-model theorems. -/
def patternExample : TuringPatterns :=
  TuringPatterns.init 2 (1 / 2) 1 2 1 (1 / 10)

/-- The same simulation state as `patternExample` but with a different
(unused-by-update) density and a scribbled next buffer, to instantiate the
determinism theorem with two non-identical structures. -/
def patternExample2 : TuringPatterns :=
  { patternExample with density := 3 / 4, next_state := fun _ _ => 7 }

theorem mem_intRange {lo hi i : ℤ} : i ∈ intRange lo hi ↔ lo ≤ i ∧ i ≤ hi := by
  unfold intRange
  rw [List.mem_map]
  constructor
  · rintro ⟨k, hk, rfl⟩
    rw [List.mem_range] at hk
    omega
  · rintro ⟨h1, h2⟩
    refine ⟨(i - lo).toNat, ?_, by omega⟩
    rw [List.mem_range]
    omega

theorem intRange_any {lo hi : ℤ} (p : ℤ → Bool) :
    (intRange lo hi).any p = true ↔ ∃ i, (lo ≤ i ∧ i ≤ hi) ∧ p i = true := by
  rw [List.any_eq_true]
  constructor
  · rintro ⟨i, hi, hp⟩
    exact ⟨i, mem_intRange.mp hi, hp⟩
  · rintro ⟨i, hi, hp⟩
    exact ⟨i, mem_intRange.mpr hi, hp⟩

theorem intRange_nodup (lo hi : ℤ) : (intRange lo hi).Nodup := by
  unfold intRange
  refine List.Nodup.map ?_ (List.nodup_range _)
  intro a b h
  dsimp only at h
  omega

theorem intRange_toFinset (lo hi : ℤ) :
    (intRange lo hi).toFinset = Finset.Icc lo hi := by
  ext i
  simp [List.mem_toFinset, mem_intRange, Finset.mem_Icc]

theorem intRange_map_sum (lo hi : ℤ) (f : ℤ → ℚ) :
    ((intRange lo hi).map f).sum = ∑ i ∈ Finset.Icc lo hi, f i := by
  rw [← intRange_toFinset]
  exact (List.sum_toFinset f (intRange_nodup lo hi)).symm

theorem burningNeighbor_iff (n : ℕ) (radius : ℤ) (g : Grid) (row col : ℕ) :
    burningNeighbor n radius g row col = true ↔
      ∃ dr dc : ℤ, dr ∈ Finset.Icc (-radius) radius ∧
        dc ∈ Finset.Icc (-radius) radius ∧ (dr, dc) ≠ ((0 : ℤ), (0 : ℤ)) ∧
        g (wrap n ((row : ℤ) + dr)) (wrap n ((col : ℤ) + dc)) = 2 := by
  unfold burningNeighbor
  rw [intRange_any]
  constructor
  · rintro ⟨dr, hdr, hb⟩
    rw [intRange_any] at hb
    obtain ⟨dc, hdc, hb⟩ := hb
    rw [Bool.and_eq_true, Bool.or_eq_true] at hb
    obtain ⟨hne, hval⟩ := hb
    refine ⟨dr, dc, Finset.mem_Icc.mpr hdr, Finset.mem_Icc.mpr hdc, ?_,
      of_decide_eq_true hval⟩
    intro hp
    rw [Prod.mk.injEq] at hp
    rcases hne with h | h
    · exact (of_decide_eq_true h) hp.1
    · exact (of_decide_eq_true h) hp.2
  · rintro ⟨dr, dc, hdr, hdc, hne, hval⟩
    refine ⟨dr, Finset.mem_Icc.mp hdr, ?_⟩
    rw [intRange_any]
    refine ⟨dc, Finset.mem_Icc.mp hdc, ?_⟩
    rw [Bool.and_eq_true, Bool.or_eq_true]
    refine ⟨?_, decide_eq_true hval⟩
    by_cases h : dr = 0
    · subst h
      refine Or.inr (decide_eq_true ?_)
      intro hc
      exact hne (by rw [hc])
    · exact Or.inl (decide_eq_true h)

theorem windowSum_eq (n : ℕ) (r : ℤ) (g : QGrid) (row col : ℕ) :
    windowSum n r g row col =
      ∑ c1 ∈ Finset.Icc (-r) r, ∑ r1 ∈ Finset.Icc (-r) r,
        g (wrap n ((row : ℤ) + r1)) (wrap n ((col : ℤ) + c1)) := by
  unfold windowSum
  rw [intRange_map_sum]
  exact Finset.sum_congr rfl fun c1 _ => intRange_map_sum _ _ _

/-- C1: Fire transition rule — one `update()` maps each cell as a pure
function of the current grid only: a burning cell (2) becomes burnt (3); a
tree (1) becomes burning (2) exactly when some offset `(dr, dc)` with
`dr, dc ∈ [-radius, radius]` and `(dr, dc) ≠ (0, 0)` hits a burning cell
through toroidal wraparound, and otherwise remains a tree; empty (0) and
burnt (3) cells are unchanged. -/
theorem C1_fire_transition_rule (s : ForestFire) (row col : ℕ) :
    (s.current_state row col = 2 → s.update.current_state row col = 3) ∧
    (s.current_state row col = 1 →
      ((s.update.current_state row col = 2 ↔
        ∃ dr dc : ℤ, dr ∈ Finset.Icc (-s.radius) s.radius ∧
          dc ∈ Finset.Icc (-s.radius) s.radius ∧
          (dr, dc) ≠ ((0 : ℤ), (0 : ℤ)) ∧
          s.current_state (wrap s.size ((row : ℤ) + dr))
            (wrap s.size ((col : ℤ) + dc)) = 2) ∧
       (s.update.current_state row col = 2 ∨
        s.update.current_state row col = 1))) ∧
    (s.current_state row col = 0 → s.update.current_state row col = 0) ∧
    (s.current_state row col = 3 → s.update.current_state row col = 3) := by
  have hup : s.update.current_state row col
      = fireCell s.size s.radius s.current_state row col := rfl
  have hiff := burningNeighbor_iff s.size s.radius s.current_state row col
  refine ⟨?_, ?_, ?_, ?_⟩
  · intro h
    rw [hup]
    simp [fireCell, h]
  · intro h
    have hval : s.update.current_state row col
        = (if burningNeighbor s.size s.radius s.current_state row col
           then 2 else 1) := by
      rw [hup]
      simp [fireCell, h]
    cases hb : burningNeighbor s.size s.radius s.current_state row col
    · rw [hb] at hval
      simp at hval
      refine ⟨iff_of_false (by rw [hval]; decide) ?_, Or.inr hval⟩
      intro hx
      exact absurd (hiff.mpr hx) (by simp [hb])
    · rw [hb] at hval
      simp at hval
      exact ⟨iff_of_true hval (hiff.mp hb), Or.inl hval⟩
  · intro h
    rw [hup]
    simp [fireCell, h]
  · intro h
    rw [hup]
    simp [fireCell, h]

/-- C1 witness: on a concrete 3×3 grid with the origin burning and trees
elsewhere, the burning cell turns burnt and the tree at (0, 1) catches
fire from its wrapped neighbor. -/
theorem C1_fire_transition_rule_witness :
    fireExample.update.current_state 0 0 = 3 ∧
      fireExample.update.current_state 0 1 = 2 :=
  ⟨(C1_fire_transition_rule fireExample 0 0).1 (by decide),
   (((C1_fire_transition_rule fireExample 0 1).2.1 (by decide)).1).mpr
     ⟨0, -1, by decide, by decide, by decide, by decide⟩⟩

/-- C6: Fire monotonicity — once a cell is burnt (3), every number of
further `update()` calls leaves it burnt; since the starting grid is
universally quantified, this covers every grid reachable by repeated
updates. -/
theorem C6_fire_burnt_terminal (s : ForestFire) (row col : ℕ)
    (h : s.current_state row col = 3) :
    ∀ k : ℕ, (ForestFire.update^[k] s).current_state row col = 3 := by
  intro k
  induction k generalizing s with
  | zero => simpa using h
  | succ k ih =>
      rw [Function.iterate_succ_apply]
      apply ih
      show fireCell s.size s.radius s.current_state row col = 3
      simp [fireCell, h]

/-- C6 witness: the cell burnt after one step of the concrete example
stays burnt two steps later. -/
theorem C6_fire_burnt_terminal_witness :
    (ForestFire.update^[2] fireExample.update).current_state 0 0 = 3 :=
  C6_fire_burnt_terminal fireExample.update 0 0 (by decide) 2

/-- C9: calling `update()` before the initializer raises nothing (both
embedded update functions are total), leaves the freshly constructed
all-zeros grid all zeros — the fire rule fixes empty cells, and the
pattern rule gets `na = ni = 0` hence `diff = 0`, which is not `> 0` —
and moves the step counter from 0 to 1. -/
theorem C9_update_before_seed (n : ℕ) (d : ℚ) (r : ℤ)
    (dP : ℚ) (Ra Ri : ℤ) (wa wi : ℚ) :
    (∀ row col, (ForestFire.init n d r).update.current_state row col = 0) ∧
    (ForestFire.init n d r).update.step_counter = 1 ∧
    (∀ row col,
      (TuringPatterns.init n dP Ra Ri wa wi).update.current_state row col
        = 0) ∧
    (TuringPatterns.init n dP Ra Ri wa wi).update.step_counter = 1 := by
  refine ⟨?_, rfl, ?_, rfl⟩
  · intro row col
    show fireCell n r zeroGrid row col = 0
    simp [fireCell, zeroGrid]
  · intro row col
    show patternCell n Ra Ri wa wi zeroQGrid row col = 0
    simp [patternCell, windowSum_eq, zeroQGrid]

/-- C10: state-domain invariant — the fire rule keeps every in-range cell
of a `{0,1,2,3}`-valued grid in `{0,1,2,3}`, and the pattern rule writes
only 0 or 1 into every cell, whatever the input grid holds. -/
theorem C10_state_domain (n : ℕ) (radius : ℤ) (g : Grid)
    (hg : ∀ r c, r < n → c < n →
      (g r c = 0 ∨ g r c = 1 ∨ g r c = 2 ∨ g r c = 3))
    (Ra Ri : ℤ) (wa wi : ℚ) (q : QGrid) :
    (∀ r c, r < n → c < n →
      (fireStepGrid n radius g r c = 0 ∨ fireStepGrid n radius g r c = 1 ∨
       fireStepGrid n radius g r c = 2 ∨ fireStepGrid n radius g r c = 3)) ∧
    (∀ r c, patternStepGrid n Ra Ri wa wi q r c = 0 ∨
      patternStepGrid n Ra Ri wa wi q r c = 1) := by
  constructor
  · intro r c hr hc
    unfold fireStepGrid fireCell
    rcases hg r c hr hc with h | h | h | h
    · simp [h]
    · simp only [h]
      cases burningNeighbor n radius g r c <;> simp
    · simp [h]
    · simp [h]
  · intro r c
    unfold patternStepGrid
    simp only [patternCell]
    split <;> simp

/-- C10 witness: concrete instances — an all-burning 1×1 fire grid and an
out-of-domain constant-5 pattern grid. -/
theorem C10_state_domain_witness :
    (fireStepGrid 1 1 (fun _ _ => 2) 0 0 = 0 ∨
     fireStepGrid 1 1 (fun _ _ => 2) 0 0 = 1 ∨
     fireStepGrid 1 1 (fun _ _ => 2) 0 0 = 2 ∨
     fireStepGrid 1 1 (fun _ _ => 2) 0 0 = 3) ∧
    (patternStepGrid 1 1 1 1 1 (fun _ _ => 5) 0 0 = 0 ∨
     patternStepGrid 1 1 1 1 1 (fun _ _ => 5) 0 0 = 1) :=
  ⟨(C10_state_domain 1 1 (fun _ _ => 2)
      (fun _ _ _ _ => Or.inr (Or.inr (Or.inl rfl))) 1 1 1 1
      (fun _ _ => 5)).1 0 0 (by decide) (by decide),
   (C10_state_domain 1 1 (fun _ _ => 2)
      (fun _ _ _ _ => Or.inr (Or.inr (Or.inl rfl))) 1 1 1 1
      (fun _ _ => 5)).2 0 0⟩

/-- C2: Pattern transition rule — one `update()` computes `na` as the sum
of the current grid over the entire `(2·Ra+1)²` window (center included),
`ni` likewise over the `Ri` window, and writes 1 exactly when
`wa·na − wi·ni > 0` and 0 otherwise; in particular with `na = ni = 0` the
difference is 0 and the strict threshold yields 0 (inactive). -/
theorem C2_pattern_transition_rule (s : TuringPatterns) (row col : ℕ) :
    (s.update.current_state row col =
      if s.wa * (∑ c1 ∈ Finset.Icc (-s.Ra) s.Ra,
            ∑ r1 ∈ Finset.Icc (-s.Ra) s.Ra,
            s.current_state (wrap s.size ((row : ℤ) + r1))
              (wrap s.size ((col : ℤ) + c1)))
          - s.wi * (∑ c2 ∈ Finset.Icc (-s.Ri) s.Ri,
            ∑ r2 ∈ Finset.Icc (-s.Ri) s.Ri,
            s.current_state (wrap s.size ((row : ℤ) + r2))
              (wrap s.size ((col : ℤ) + c2))) > 0
      then 1 else 0) ∧
    ((∑ c1 ∈ Finset.Icc (-s.Ra) s.Ra, ∑ r1 ∈ Finset.Icc (-s.Ra) s.Ra,
        s.current_state (wrap s.size ((row : ℤ) + r1))
          (wrap s.size ((col : ℤ) + c1))) = 0 ∧
     (∑ c2 ∈ Finset.Icc (-s.Ri) s.Ri, ∑ r2 ∈ Finset.Icc (-s.Ri) s.Ri,
        s.current_state (wrap s.size ((row : ℤ) + r2))
          (wrap s.size ((col : ℤ) + c2))) = 0 →
      s.update.current_state row col = 0) := by
  have hup : s.update.current_state row col
      = patternCell s.size s.Ra s.Ri s.wa s.wi s.current_state row col := rfl
  constructor
  · rw [hup]
    simp only [patternCell, windowSum_eq]
  · rintro ⟨hA, hI⟩
    rw [hup]
    simp only [patternCell, windowSum_eq, hA, hI]
    norm_num

/-- C2 witness: on the concrete all-zeros pattern simulation both window
sums vanish and the cell resolves to inactive. -/
theorem C2_pattern_transition_rule_witness :
    patternExample.update.current_state 0 0 = 0 :=
  (C2_pattern_transition_rule patternExample 0 0).2
    ⟨by simp [patternExample, TuringPatterns.init, zeroQGrid],
     by simp [patternExample, TuringPatterns.init, zeroQGrid]⟩

/-- C8: Pattern determinism — two simulations with the same size, radii,
weights and current grid (densities and next buffers may differ: `update`
reads neither) stay cell-for-cell identical, with identical step
counters, after any number of `update()` calls; the embedded update draws
no randomness. -/
theorem C8_pattern_determinism (s1 s2 : TuringPatterns)
    (hsize : s1.size = s2.size) (hRa : s1.Ra = s2.Ra) (hRi : s1.Ri = s2.Ri)
    (hwa : s1.wa = s2.wa) (hwi : s1.wi = s2.wi)
    (hg : s1.current_state = s2.current_state)
    (hc : s1.step_counter = s2.step_counter) (N : ℕ) :
    (TuringPatterns.update^[N] s1).current_state
      = (TuringPatterns.update^[N] s2).current_state ∧
    (TuringPatterns.update^[N] s1).step_counter
      = (TuringPatterns.update^[N] s2).step_counter := by
  induction N generalizing s1 s2 with
  | zero => exact ⟨hg, hc⟩
  | succ N ih =>
      rw [Function.iterate_succ_apply, Function.iterate_succ_apply]
      refine ih (TuringPatterns.update s1) (TuringPatterns.update s2)
        hsize hRa hRi hwa hwi ?_ ?_
      · show patternStepGrid s1.size s1.Ra s1.Ri s1.wa s1.wi s1.current_state
          = patternStepGrid s2.size s2.Ra s2.Ri s2.wa s2.wi s2.current_state
        rw [hsize, hRa, hRi, hwa, hwi, hg]
      · show s1.step_counter + 1 = s2.step_counter + 1
        rw [hc]

/-- C8 witness: two concrete simulations differing only in density and in
the scribbled next buffer evolve identically for two steps. -/
theorem C8_pattern_determinism_witness :
    (TuringPatterns.update^[2] patternExample).current_state
      = (TuringPatterns.update^[2] patternExample2).current_state ∧
    (TuringPatterns.update^[2] patternExample).step_counter
      = (TuringPatterns.update^[2] patternExample2).step_counter :=
  C8_pattern_determinism patternExample patternExample2
    rfl rfl rfl rfl rfl rfl rfl 2

theorem roundHalfEven_intCast (m : ℤ) : roundHalfEven (m : ℚ) = m := by
  unfold roundHalfEven
  rw [Int.floor_intCast]
  norm_num

theorem round1_intCast (m : ℤ) : round1 (m : ℚ) = m := by
  unfold round1
  have h : (10 : ℚ) * m = ((10 * m : ℤ) : ℚ) := by push_cast; ring
  rw [h, roundHalfEven_intCast]
  push_cast
  ring

theorem roundHalfEven_nonneg {x : ℚ} (hx : 0 ≤ x) : 0 ≤ roundHalfEven x := by
  unfold roundHalfEven
  have h : 0 ≤ ⌊x⌋ := Int.floor_nonneg.mpr hx
  split
  · exact h
  · split
    · omega
    · split <;> omega

theorem round1_nonneg {x : ℚ} (hx : 0 ≤ x) : 0 ≤ round1 x := by
  unfold round1
  have h : 0 ≤ roundHalfEven (10 * x) :=
    roundHalfEven_nonneg (by positivity)
  positivity

theorem rangeSq_card (n : ℕ) :
    (Finset.range n ×ˢ Finset.range n).card = n ^ 2 := by
  rw [Finset.card_product, Finset.card_range]
  ring

/-- C3 counterexample: at the concrete parameters size 3, density 2
(outside `[0, 1]`) and radius 0 (below 1) — and, for the pattern model,
`long_radius = 1 < 5 = short_radius` — the validity
condition fails, yet both constructors still return an instance with the
parameters stored and the step counter at 0; no InvalidParameter failure
occurs. -/
theorem C3_counterexample_no_validation :
    ¬ fireParamsValid 3 2 0 ∧
    (ForestFire.init 3 2 0).size = 3 ∧
    (ForestFire.init 3 2 0).density = 2 ∧
    (ForestFire.init 3 2 0).radius = 0 ∧
    (ForestFire.init 3 2 0).step_counter = 0 ∧
    ¬ patternParamsValid 3 2 5 1 ∧
    (TuringPatterns.init 3 2 5 1 1 1).Ra = 5 ∧
    (TuringPatterns.init 3 2 5 1 1 1).Ri = 1 ∧
    (TuringPatterns.init 3 2 5 1 1 1).step_counter = 0 := by
  refine ⟨?_, rfl, rfl, rfl, rfl, ?_, rfl, rfl, rfl⟩
  · intro h
    exact absurd h.2.2.1 (by norm_num)
  · intro h
    exact absurd h.2.2.2.2.2 (by norm_num)

/-- C3 amended: the constructors perform no parameter validation — for
every parameter combination (any density, any radii and weights, any
natural grid size; a negative size would already fail inside `np.zeros`
with a `ValueError`, likewise never an `InvalidParameter`) construction
returns an instance storing the parameters unchanged, with all-zeros
buffers and step counter 0. -/
theorem C3_amended_construction_total (n : ℕ) (d : ℚ) (r : ℤ)
    (dP : ℚ) (Ra Ri : ℤ) (wa wi : ℚ) :
    (ForestFire.init n d r).size = n ∧
    (ForestFire.init n d r).density = d ∧
    (ForestFire.init n d r).radius = r ∧
    (ForestFire.init n d r).step_counter = 0 ∧
    (∀ i j, (ForestFire.init n d r).current_state i j = 0) ∧
    (TuringPatterns.init n dP Ra Ri wa wi).size = n ∧
    (TuringPatterns.init n dP Ra Ri wa wi).density = dP ∧
    (TuringPatterns.init n dP Ra Ri wa wi).Ra = Ra ∧
    (TuringPatterns.init n dP Ra Ri wa wi).Ri = Ri ∧
    (TuringPatterns.init n dP Ra Ri wa wi).wa = wa ∧
    (TuringPatterns.init n dP Ra Ri wa wi).wi = wi ∧
    (TuringPatterns.init n dP Ra Ri wa wi).step_counter = 0 ∧
    (∀ i j, (TuringPatterns.init n dP Ra Ri wa wi).current_state i j = 0) :=
  ⟨rfl, rfl, rfl, rfl, fun _ _ => rfl, rfl, rfl, rfl, rfl, rfl, rfl, rfl,
    fun _ _ => rfl⟩

/-- C7: the distinct-cell sampler underlying both initializers fails with
InsufficientCells exactly when the requested count exceeds `size²`, and
succeeds otherwise; at density 1 the count formula of the pattern model yields
`size² + 1`, which always exceeds the population. -/
theorem C7_insufficient_cells (n : ℕ) (dF dP : ℚ)
    (draw : Finset (ℕ × ℕ)) (pick : ℕ × ℕ) :
    (fireSeed n dF draw pick = .error .insufficientCells ↔
      n ^ 2 < fireTreeCount n dF) ∧
    ((∃ g, fireSeed n dF draw pick = .ok g) ↔
      fireTreeCount n dF ≤ n ^ 2) ∧
    (patternSeed n dP draw = .error .insufficientCells ↔
      n ^ 2 < patternActiveCount n dP) ∧
    ((∃ g, patternSeed n dP draw = .ok g) ↔
      patternActiveCount n dP ≤ n ^ 2) ∧
    patternActiveCount n 1 = n ^ 2 + 1 := by
  refine ⟨?_, ?_, ?_, ?_, ?_⟩
  · unfold fireSeed sampleCells
    by_cases h : fireTreeCount n dF ≤ n ^ 2
    · rw [if_pos h]
      simp [Except.map]
      omega
    · rw [if_neg h]
      simp [Except.map]
      omega
  · unfold fireSeed sampleCells
    by_cases h : fireTreeCount n dF ≤ n ^ 2
    · rw [if_pos h]
      simp [Except.map, h]
    · rw [if_neg h]
      simp [Except.map, h]
  · unfold patternSeed sampleCells
    by_cases h : patternActiveCount n dP ≤ n ^ 2
    · rw [if_pos h]
      simp [Except.map]
      omega
    · rw [if_neg h]
      simp [Except.map]
      omega
  · unfold patternSeed sampleCells
    by_cases h : patternActiveCount n dP ≤ n ^ 2
    · rw [if_pos h]
      simp [Except.map, h]
    · rw [if_neg h]
      simp [Except.map, h]
  · unfold patternActiveCount
    have h : (1 : ℚ) * (n : ℚ) ^ 2 = ((n ^ 2 : ℤ) : ℚ) := by push_cast; ring
    rw [h, round1_intCast]
    have h2 : ((n ^ 2 : ℤ) : ℚ) + 1 = ((n ^ 2 + 1 : ℤ) : ℚ) := by push_cast; ring
    rw [h2, Int.floor_intCast]
    have h3 : ((n : ℤ) ^ 2 + 1) = ((n ^ 2 + 1 : ℕ) : ℤ) := by push_cast; ring
    rw [h3, Int.toNat_natCast]

/-- C4: Fire initializer — with density in `[0, 1]`, the draw of
`int(density·size²)` distinct in-range cells all become trees; when at
least one tree was placed, the uniformly picked tree turns burning,
leaving `int(density·size²) − 1` trees, exactly one burning cell, no
burnt cell, and all remaining cells empty; with no trees the grid stays
entirely empty.  At size 10 and density 3/10 the tree count before
ignition is exactly 30 (hence 29 after). -/
theorem C4_fire_seed_counts (n : ℕ) (density : ℚ)
    (hd0 : 0 ≤ density) (hd1 : density ≤ 1)
    (draw : Finset (ℕ × ℕ)) (pick : ℕ × ℕ)
    (hsub : draw ⊆ Finset.range n ×ˢ Finset.range n)
    (hcard : draw.card = fireTreeCount n density)
    (hpick : draw.Nonempty → pick ∈ draw) :
    ∃ g, fireSeed n density draw pick = .ok g ∧
      (draw.Nonempty →
        cellCount n g 1 = fireTreeCount n density - 1 ∧
        cellCount n g 2 = 1 ∧
        cellCount n g 0 = n ^ 2 - fireTreeCount n density ∧
        cellCount n g 3 = 0) ∧
      (¬ draw.Nonempty → ∀ r c, g r c = 0) ∧
      fireTreeCount 10 (3 / 10) = 30 := by
  have hle : fireTreeCount n density ≤ n ^ 2 := by
    rw [← hcard, ← rangeSq_card n]
    exact Finset.card_le_card hsub
  refine ⟨igniteAt draw pick, ?_, ?_, ?_, ?_⟩
  · unfold fireSeed sampleCells
    rw [if_pos hle]
    rfl
  · intro hne
    have hp : pick ∈ draw := hpick hne
    have hval : ∀ p : ℕ × ℕ, igniteAt draw pick p.1 p.2
        = (if p = pick then 2 else if p ∈ draw then 1 else 0) := by
      intro p
      simp only [igniteAt, placeOnes, hne, true_and, Prod.mk.eta]
    refine ⟨?_, ?_, ?_, ?_⟩
    · unfold cellCount
      have h1 : (Finset.range n ×ˢ Finset.range n).filter
          (fun p => igniteAt draw pick p.1 p.2 = 1) = draw.erase pick := by
        ext p
        simp only [Finset.mem_filter, hval, Finset.mem_erase]
        constructor
        · rintro ⟨hP, hg⟩
          by_cases hp2 : p = pick
          · rw [if_pos hp2] at hg
            norm_num at hg
          · rw [if_neg hp2] at hg
            split at hg
            · exact ⟨hp2, by assumption⟩
            · norm_num at hg
        · rintro ⟨hne2, hmem⟩
          refine ⟨hsub hmem, ?_⟩
          rw [if_neg hne2, if_pos hmem]
      rw [h1, Finset.card_erase_of_mem hp, hcard]
    · unfold cellCount
      have h2 : (Finset.range n ×ˢ Finset.range n).filter
          (fun p => igniteAt draw pick p.1 p.2 = 2) = {pick} := by
        ext p
        simp only [Finset.mem_filter, hval, Finset.mem_singleton]
        constructor
        · rintro ⟨hP, hg⟩
          by_contra hne2
          rw [if_neg hne2] at hg
          split at hg <;> norm_num at hg
        · rintro rfl
          exact ⟨hsub hp, by rw [if_pos rfl]⟩
      rw [h2, Finset.card_singleton]
    · unfold cellCount
      have h0 : (Finset.range n ×ˢ Finset.range n).filter
          (fun p => igniteAt draw pick p.1 p.2 = 0)
          = (Finset.range n ×ˢ Finset.range n) \ draw := by
        ext p
        simp only [Finset.mem_filter, hval, Finset.mem_sdiff]
        constructor
        · rintro ⟨hP, hg⟩
          refine ⟨hP, ?_⟩
          intro hmem
          by_cases hp2 : p = pick
          · rw [if_pos hp2] at hg
            norm_num at hg
          · rw [if_neg hp2, if_pos hmem] at hg
            norm_num at hg
        · rintro ⟨hP, hnm⟩
          have hp2 : p ≠ pick := fun h => hnm (h ▸ hp)
          refine ⟨hP, ?_⟩
          rw [if_neg hp2, if_neg hnm]
      rw [h0, Finset.card_sdiff hsub, rangeSq_card, hcard]
    · unfold cellCount
      have h3 : (Finset.range n ×ˢ Finset.range n).filter
          (fun p => igniteAt draw pick p.1 p.2 = 3) = ∅ := by
        ext p
        simp only [Finset.mem_filter, hval, Finset.not_mem_empty, iff_false,
          not_and]
        intro hP hg
        rw [if_neg] at hg
        · split at hg <;> norm_num at hg
        · intro hp2
          rw [if_pos hp2] at hg
          norm_num at hg
      rw [h3, Finset.card_empty]
  · intro hne r c
    rw [Finset.not_nonempty_iff_eq_empty] at hne
    subst hne
    simp [igniteAt, placeOnes]
  · unfold fireTreeCount
    norm_num
    omega

/-- C4 witness: a concrete draw of the 30 cells `{0,1,2} × {0..9}` on the
10×10 grid with ignition at the origin. -/
theorem C4_fire_seed_counts_witness :
    ∃ g, fireSeed 10 (3 / 10) (Finset.range 3 ×ˢ Finset.range 10) (0, 0)
        = .ok g ∧
      ((Finset.range 3 ×ˢ Finset.range 10).Nonempty →
        cellCount 10 g 1 = fireTreeCount 10 (3 / 10) - 1 ∧
        cellCount 10 g 2 = 1 ∧
        cellCount 10 g 0 = 10 ^ 2 - fireTreeCount 10 (3 / 10) ∧
        cellCount 10 g 3 = 0) ∧
      (¬ (Finset.range 3 ×ˢ Finset.range 10).Nonempty → ∀ r c, g r c = 0) ∧
      fireTreeCount 10 (3 / 10) = 30 :=
  C4_fire_seed_counts 10 (3 / 10) (by norm_num) (by norm_num)
    (Finset.range 3 ×ˢ Finset.range 10) (0, 0)
    (Finset.product_subset_product
      (Finset.range_subset.mpr (by norm_num)) Finset.Subset.rfl)
    (by rw [Finset.card_product, Finset.card_range, Finset.card_range]
        unfold fireTreeCount
        norm_num
        omega)
    (fun _ => by decide)

/-- C5: Pattern initializer — with nonnegative density, the draw of
`int(round(density·size², 1) + 1)` distinct in-range cells all become
active and every other cell stays inactive; the active count equals
`⌊round(density·size², 1)⌋ + 1` and is therefore at least 1 even at
density 0. -/
theorem C5_pattern_seed_counts (n : ℕ) (density : ℚ) (hd : 0 ≤ density)
    (draw : Finset (ℕ × ℕ))
    (hsub : draw ⊆ Finset.range n ×ˢ Finset.range n)
    (hcard : draw.card = patternActiveCount n density) :
    ∃ g, patternSeed n density draw = .ok g ∧
      qCellCount n g 1 = (⌊round1 (density * (n : ℚ) ^ 2)⌋).toNat + 1 ∧
      1 ≤ qCellCount n g 1 ∧
      qCellCount n g 0 = n ^ 2 - patternActiveCount n density ∧
      qCellCount n g 1 + qCellCount n g 0 = n ^ 2 := by
  have hle : patternActiveCount n density ≤ n ^ 2 := by
    rw [← hcard, ← rangeSq_card n]
    exact Finset.card_le_card hsub
  have hx : (0 : ℚ) ≤ density * (n : ℚ) ^ 2 := by positivity
  have hr1 : (0 : ℚ) ≤ round1 (density * (n : ℚ) ^ 2) := round1_nonneg hx
  have hfl : 0 ≤ ⌊round1 (density * (n : ℚ) ^ 2)⌋ := Int.floor_nonneg.mpr hr1
  have hcount : patternActiveCount n density
      = (⌊round1 (density * (n : ℚ) ^ 2)⌋).toNat + 1 := by
    unfold patternActiveCount
    rw [Int.floor_add_one]
    omega
  have hone : (Finset.range n ×ˢ Finset.range n).filter
      (fun p => placeOnesQ draw p.1 p.2 = 1) = draw := by
    ext p
    simp only [Finset.mem_filter, placeOnesQ, Prod.mk.eta]
    constructor
    · rintro ⟨hP, hg⟩
      split at hg
      · assumption
      · norm_num at hg
    · intro hmem
      exact ⟨hsub hmem, by rw [if_pos hmem]⟩
  have hzero : (Finset.range n ×ˢ Finset.range n).filter
      (fun p => placeOnesQ draw p.1 p.2 = 0)
      = (Finset.range n ×ˢ Finset.range n) \ draw := by
    ext p
    simp only [Finset.mem_filter, placeOnesQ, Prod.mk.eta, Finset.mem_sdiff]
    constructor
    · rintro ⟨hP, hg⟩
      refine ⟨hP, ?_⟩
      intro hmem
      rw [if_pos hmem] at hg
      norm_num at hg
    · rintro ⟨hP, hnm⟩
      exact ⟨hP, by rw [if_neg hnm]⟩
  refine ⟨placeOnesQ draw, ?_, ?_, ?_, ?_, ?_⟩
  · unfold patternSeed sampleCells
    rw [if_pos hle]
    rfl
  · unfold qCellCount
    rw [hone, hcard, hcount]
  · unfold qCellCount
    rw [hone, hcard, hcount]
    omega
  · unfold qCellCount
    rw [hzero, Finset.card_sdiff hsub, rangeSq_card, hcard]
  · unfold qCellCount
    rw [hone, hzero, Finset.card_sdiff hsub, rangeSq_card, hcard]
    omega

/-- C5 witness: size 2 and density 0 — the count formula still places one
active cell, here at the origin. -/
theorem C5_pattern_seed_counts_witness :
    ∃ g, patternSeed 2 0 {((0 : ℕ), (0 : ℕ))} = .ok g ∧
      qCellCount 2 g 1 = (⌊round1 ((0 : ℚ) * ((2 : ℕ) : ℚ) ^ 2)⌋).toNat + 1 ∧
      1 ≤ qCellCount 2 g 1 ∧
      qCellCount 2 g 0 = 2 ^ 2 - patternActiveCount 2 0 ∧
      qCellCount 2 g 1 + qCellCount 2 g 0 = 2 ^ 2 :=
  C5_pattern_seed_counts 2 0 le_rfl {((0 : ℕ), (0 : ℕ))}
    (by decide)
    (by rw [Finset.card_singleton]
        unfold patternActiveCount round1 roundHalfEven
        norm_num)

end CA
